import Mathlib

/-!
Verification of the WetStringReverb DSP core against its natural-language
specification.  Each C++ class under `Source/DSP/` that the claims touch is
shallowly embedded below: pure per-sample functions become Lean functions on
`ℝ` (or on `ℚ` where the code is exact rational arithmetic), stateful
classes become structures with explicit state passing, and the C++ float
literals are read as real literals.
-/

/-- The float literal `3.14159265f` used throughout the C++ sources in place
of π. -/
def piLit : ℝ := 3.14159265

/-! ## ReverbMixer (Source/DSP/ReverbMixer.h) -/

/-- Parameter block of `ReverbMixer` (fields `dry`, `wet`, `earlyGain`,
`lateGain`, `stereoWidth`). -/
structure ReverbMixer where
  dry : ℝ
  wet : ℝ
  earlyGain : ℝ
  lateGain : ℝ
  stereoWidth : ℝ

/-- `ReverbMixer::softClip`: identity-minus-cubic inside `[-1.5, 1.5]`,
saturating to `±1` beyond. -/
noncomputable def ReverbMixer.softClip (x : ℝ) : ℝ :=
  if x > 1.5 then 1
  else if x < -1.5 then -1
  else x - (x * x * x) / 6.75

/-- `ReverbMixer::killDenormal`: the C++ code zeroes `x` when the IEEE-754
single-precision exponent field is all zeros, which holds exactly for zero and
the subnormals, i.e. for `|x| < 2^(-126)`.  Over `ℝ` we model that predicate
directly. -/
noncomputable def ReverbMixer.killDenormal (x : ℝ) : ℝ :=
  if |x| < (2 : ℝ) ^ (-126 : ℤ) then 0 else x

/-- `ReverbMixer::process`: wet-bus build-up, mid/side width, soft clip and
denormal kill, returning `(outL, outR)`. -/
noncomputable def ReverbMixer.process (m : ReverbMixer)
    (dryL dryR earlyL earlyR lateL lateR dvnL dvnR : ℝ) : ℝ × ℝ :=
  let wetL := m.earlyGain * earlyL + m.lateGain * (lateL + dvnL)
  let wetR := m.earlyGain * earlyR + m.lateGain * (lateR + dvnR)
  let mid := (wetL + wetR) * 0.5
  let side := (wetL - wetR) * 0.5
  let wetL2 := mid + side * m.stereoWidth
  let wetR2 := mid - side * m.stereoWidth
  let outL := ReverbMixer.softClip (m.dry * dryL + m.wet * wetL2)
  let outR := ReverbMixer.softClip (m.dry * dryR + m.wet * wetR2)
  (ReverbMixer.killDenormal outL, ReverbMixer.killDenormal outR)

lemma softClip_mem_Icc (x : ℝ) :
    -1 ≤ ReverbMixer.softClip x ∧ ReverbMixer.softClip x ≤ 1 := by
  unfold ReverbMixer.softClip
  split_ifs with h1 h2
  · exact ⟨by norm_num, le_refl 1⟩
  · exact ⟨le_refl (-1), by norm_num⟩
  · push_neg at h1 h2
    constructor
    · have h3 : (0:ℝ) ≤ (x + 1.5) ^ 2 * (3 - x) :=
        mul_nonneg (sq_nonneg _) (by linarith)
      have key : x - x * x * x / 6.75 + 1 = (x + 1.5) ^ 2 * (3 - x) / 6.75 := by
        ring
      have h4 : (0:ℝ) ≤ (x + 1.5) ^ 2 * (3 - x) / 6.75 := by
        exact div_nonneg h3 (by norm_num)
      linarith
    · have h3 : (0:ℝ) ≤ (x - 1.5) ^ 2 * (x + 3) :=
        mul_nonneg (sq_nonneg _) (by linarith)
      have key : 1 - (x - x * x * x / 6.75) = (x - 1.5) ^ 2 * (x + 3) / 6.75 := by
        ring
      have h4 : (0:ℝ) ≤ (x - 1.5) ^ 2 * (x + 3) / 6.75 := by
        exact div_nonneg h3 (by norm_num)
      linarith

lemma killDenormal_mem_Icc {x : ℝ} (hx1 : -1 ≤ x) (hx2 : x ≤ 1) :
    -1 ≤ ReverbMixer.killDenormal x ∧ ReverbMixer.killDenormal x ≤ 1 := by
  unfold ReverbMixer.killDenormal
  split_ifs
  · exact ⟨by norm_num, by norm_num⟩
  · exact ⟨hx1, hx2⟩

/-- C10: for every mixer parameter block and all finite dry/early/late/DVN
input samples, both output samples of `ReverbMixer::process` lie in
`[-1, 1]`: the soft clip maps `[-1.5, 1.5]` onto `[-1, 1]`, inputs beyond
`±1.5` saturate to `±1`, and the denormal kill only maps values to `0`. -/
theorem reverbMixer_output_bounded (m : ReverbMixer)
    (dryL dryR earlyL earlyR lateL lateR dvnL dvnR : ℝ) :
    let out := m.process dryL dryR earlyL earlyR lateL lateR dvnL dvnR
    (-1 ≤ out.1 ∧ out.1 ≤ 1) ∧ (-1 ≤ out.2 ∧ out.2 ≤ 1) := by
  intro out
  have hL := softClip_mem_Icc (m.dry * dryL + m.wet *
    ((m.earlyGain * earlyL + m.lateGain * (lateL + dvnL) +
        (m.earlyGain * earlyR + m.lateGain * (lateR + dvnR))) * 0.5 +
      (m.earlyGain * earlyL + m.lateGain * (lateL + dvnL) -
        (m.earlyGain * earlyR + m.lateGain * (lateR + dvnR))) * 0.5 *
        m.stereoWidth))
  have hR := softClip_mem_Icc (m.dry * dryR + m.wet *
    ((m.earlyGain * earlyL + m.lateGain * (lateL + dvnL) +
        (m.earlyGain * earlyR + m.lateGain * (lateR + dvnR))) * 0.5 -
      (m.earlyGain * earlyL + m.lateGain * (lateL + dvnL) -
        (m.earlyGain * earlyR + m.lateGain * (lateR + dvnR))) * 0.5 *
        m.stereoWidth))
  exact ⟨killDenormal_mem_Icc hL.1 hL.2, killDenormal_mem_Icc hR.1 hR.2⟩

/-! ## Saturation (Source/DSP/Saturation.h) -/

/-- State and parameters of `Saturation`: blend `amount`, linear drive,
type tag (0 = Soft, 1 = Warm, 2 = Tape, 3 = Tube), asymmetry offset, and the
DC-blocker coefficient and registers `dcX1`, `dcY1`. -/
structure Saturation where
  amount : ℝ
  driveLinear : ℝ
  type : ℤ
  asymmetryOffset : ℝ
  dcBlockCoeff : ℝ
  dcX1 : ℝ
  dcY1 : ℝ

/-- `Saturation::setParameters`: percent scaling of amount and asymmetry,
dB-to-linear drive, and `std::clamp (typeIndex, 0, 3)`. -/
noncomputable def Saturation.setParameters (s : Saturation)
    (amountPercent driveDbs : ℝ) (typeIndex : ℤ) (asymmetryPercent : ℝ) :
    Saturation :=
  { s with
    amount := amountPercent * 0.01
    driveLinear := (10 : ℝ) ^ (driveDbs / 20)
    type := max 0 (min 3 typeIndex)
    asymmetryOffset := asymmetryPercent * 0.002 }

/-- `Saturation::prepare`: 10 Hz DC-blocker corner, coefficient clamped to
`[0.9, 0.9999]`, registers cleared. -/
noncomputable def Saturation.prepare (s : Saturation) (sampleRate : ℝ) :
    Saturation :=
  let fc := 10 / sampleRate
  { s with
    dcBlockCoeff := max 0.9 (min 0.9999 (1 - 2 * piLit * fc))
    dcX1 := 0
    dcY1 := 0 }

/-- `Saturation::applyNonlinearity`: the four saturation curves, dispatched
on the type tag exactly as the C++ `switch` (with `tanh` default). -/
noncomputable def Saturation.applyNonlinearity (s : Saturation) (x : ℝ) : ℝ :=
  if s.type = 0 then
    let clamped := max (-1) (min 1 x)
    1.5 * clamped - 0.5 * clamped * clamped * clamped
  else if s.type = 1 then Real.tanh x
  else if s.type = 2 then
    if x ≥ 0 then Real.tanh x else Real.tanh (0.8 * x) * 1.25
  else if s.type = 3 then
    if x ≥ 0 then Real.tanh (1.2 * x) else Real.tanh (0.8 * x)
  else Real.tanh x

/-- `Saturation::process`: bypass below the `1e-6` amount threshold, drive and
asymmetry offset, nonlinearity, DC blocker (active iff
`|asymmetryOffset| > 1e-6`), and wet/dry blend.  Returns the output sample and
the updated state. -/
noncomputable def Saturation.process (s : Saturation) (input : ℝ) :
    ℝ × Saturation :=
  if s.amount < 1e-6 then (input, s)
  else
    let driven := input * s.driveLinear + s.asymmetryOffset
    let saturated := s.applyNonlinearity driven
    if |s.asymmetryOffset| > 1e-6 then
      let dcBlocked := saturated - s.dcX1 + s.dcBlockCoeff * s.dcY1
      ((1 - s.amount) * input + s.amount * dcBlocked,
        { s with dcX1 := saturated, dcY1 := dcBlocked })
    else
      ((1 - s.amount) * input + s.amount * saturated, s)

/-- `Saturation::reset`: preseed the DC blocker with the nonlinearity of the
asymmetry offset alone. -/
noncomputable def Saturation.reset (s : Saturation) : Saturation :=
  { s with dcX1 := s.applyNonlinearity s.asymmetryOffset, dcY1 := 0 }

lemma abs_tanh_lt_one (x : ℝ) : |Real.tanh x| < 1 := by
  have h1 := Real.exp_pos x
  have h2 := Real.exp_pos (-x)
  rw [Real.tanh_eq_sinh_div_cosh, Real.sinh_eq, Real.cosh_eq, abs_div]
  have hc : 0 < (Real.exp x + Real.exp (-x)) / 2 := by positivity
  rw [abs_of_pos hc]
  exact (div_lt_one hc).mpr (abs_lt.mpr ⟨by linarith, by linarith⟩)

lemma tanh_pos_of_pos {x : ℝ} (hx : 0 < x) : 0 < Real.tanh x := by
  have h2 : Real.exp (-x) < Real.exp x := Real.exp_lt_exp.mpr (by linarith)
  rw [Real.tanh_eq_sinh_div_cosh, Real.sinh_eq, Real.cosh_eq]
  have h1 := Real.exp_pos x
  have h3 := Real.exp_pos (-x)
  exact div_pos (by linarith) (by linarith)

lemma applyNonlinearity_abs_le (s : Saturation) (d : ℝ) :
    |s.applyNonlinearity d| ≤ 1.25 := by
  unfold Saturation.applyNonlinearity
  split_ifs with h0 h1 h2 hx1 h3 hx2
  · dsimp only
    set c : ℝ := max (-1) (min 1 d) with hc
    have hc1 : -1 ≤ c := le_max_left _ _
    have hc2 : c ≤ 1 := max_le (by norm_num) (min_le_left _ _)
    rw [abs_le]
    refine ⟨?_, ?_⟩
    · have key : 1.5 * c - 0.5 * c * c * c + 1 = 0.5 * (1 + c) ^ 2 * (2 - c) := by
        ring
      have hp : (0:ℝ) ≤ 0.5 * (1 + c) ^ 2 * (2 - c) := by
        have h := mul_nonneg (sq_nonneg (1 + c)) (show (0:ℝ) ≤ 2 - c by linarith)
        nlinarith
      linarith
    · have key : 1 - (1.5 * c - 0.5 * c * c * c) = 0.5 * (1 - c) ^ 2 * (c + 2) := by
        ring
      have hp : (0:ℝ) ≤ 0.5 * (1 - c) ^ 2 * (c + 2) := by
        have h := mul_nonneg (sq_nonneg (1 - c)) (show (0:ℝ) ≤ c + 2 by linarith)
        nlinarith
      linarith
  · linarith [le_of_lt (abs_tanh_lt_one d)]
  · linarith [le_of_lt (abs_tanh_lt_one d)]
  · rw [abs_mul, abs_of_pos (show (0:ℝ) < 1.25 by norm_num)]
    nlinarith [le_of_lt (abs_tanh_lt_one (0.8 * d)),
      abs_nonneg (Real.tanh (0.8 * d))]
  · linarith [le_of_lt (abs_tanh_lt_one (1.2 * d))]
  · linarith [le_of_lt (abs_tanh_lt_one (0.8 * d))]
  · linarith [le_of_lt (abs_tanh_lt_one d)]

/-- C8: with `satAmount = 0`, `Saturation::process` is transparent — for every
input sample, every drive, type and asymmetry setting and every internal
state, the output equals the input exactly and the state (including the
DC-blocker registers) is unchanged. -/
theorem saturation_zero_amount_transparent (s0 : Saturation)
    (driveDbs : ℝ) (typeIndex : ℤ) (asymmetryPercent : ℝ) (x : ℝ) :
    (Saturation.process
        (s0.setParameters 0 driveDbs typeIndex asymmetryPercent) x).1 = x ∧
    (Saturation.process
        (s0.setParameters 0 driveDbs typeIndex asymmetryPercent) x).2 =
      s0.setParameters 0 driveDbs typeIndex asymmetryPercent := by
  have ha : (s0.setParameters 0 driveDbs typeIndex asymmetryPercent).amount
      = 0 := by
    simp [Saturation.setParameters]
  constructor <;> · simp only [Saturation.process, ha]; norm_num

/-- C7: with `satAmount = 100%`, `satDrive = 24 dB`, `satAsymmetry = 0`, for
every saturation type and every input `x` with `|x| ≤ 1`, the output of
`Saturation::process` satisfies `|y| ≤ 1.3` (in fact `≤ 1.25`, uniformly in
the DC-blocker state). -/
theorem saturation_bounded_output (s0 : Saturation) (typeIndex : ℤ)
    (x : ℝ) (hx : |x| ≤ 1) :
    |(Saturation.process (s0.setParameters 100 24 typeIndex 0) x).1| ≤ 1.3 := by
  have ha : (s0.setParameters 100 24 typeIndex 0).amount = 1 := by
    simp [Saturation.setParameters]; norm_num
  have hoff : (s0.setParameters 100 24 typeIndex 0).asymmetryOffset = 0 := by
    simp [Saturation.setParameters]
  have hb := applyNonlinearity_abs_le (s0.setParameters 100 24 typeIndex 0)
    (x * (s0.setParameters 100 24 typeIndex 0).driveLinear + 0)
  simp only [Saturation.process, ha, hoff]
  norm_num
  rw [add_zero] at hb
  linarith

/-- Witness for `saturation_bounded_output` at `x = 1/2`, type Tape. -/
theorem saturation_bounded_output_witness :
    |(1:ℝ) / 2| ≤ 1 ∧
    |(Saturation.process
        (Saturation.setParameters ⟨0, 1, 1, 0, 0.995, 0, 0⟩ 100 24 2 0)
        (1 / 2)).1| ≤ 1.3 :=
  ⟨by rw [abs_of_pos] <;> norm_num,
    saturation_bounded_output ⟨0, 1, 1, 0, 0.995, 0, 0⟩ 2 (1 / 2)
      (by rw [abs_of_pos] <;> norm_num)⟩

/-- C5 (code bug evidence): after `reset()`, the saturator with
`satAmount = 100%`, Warm type and `satAsymmetry = 0.0005%` — i.e. asymmetry
offset exactly `1e-6`, at which the DC blocker stays disabled because the
code requires `|offset| > 1e-6` strictly — maps a zero input sample to
`tanh 1e-6 ≠ 0`, not to zero.  Inside the FDN loop this nonzero constant is
re-injected every sample and accumulates, so zero input does not produce zero
output for this parameter setting, contradicting the comment in
`Saturation::reset` and §4.6 of the spec. -/
theorem saturation_reset_zero_input_bug :
    (Saturation.process
        (Saturation.reset
          (Saturation.setParameters ⟨0, 1, 1, 0, 0.995, 0, 0⟩ 100 6 1 0.0005))
        0).1 ≠ 0 := by
  have htanh := tanh_pos_of_pos (show (0:ℝ) < 1 / 1000000 by norm_num)
  have hty : (max (0:ℤ) (min 3 1)) = 1 := by norm_num
  simp only [Saturation.process, Saturation.setParameters, Saturation.reset,
    Saturation.applyNonlinearity, hty]
  norm_num
  rw [abs_of_pos (show (0:ℝ) < 1 / 1000000 by norm_num)]
  simp only [lt_self_iff_false, if_false]
  exact ne_of_gt htanh

/-! ## AttenuationFilter (Source/DSP/AttenuationFilter.h) -/

/-- First-order shelving filter `H(z) = (b0 + b1 z⁻¹) / (1 + a1 z⁻¹)` with
input register `z1` and output register `zOut1`. -/
structure AttenuationFilter where
  b0 : ℝ
  b1 : ℝ
  a1Coeff : ℝ
  z1 : ℝ
  zOut1 : ℝ

/-- The coefficient `c` of the final ("Jot / Schlecht Eq. 3.24") branch of
`AttenuationFilter::setCoefficients`:
`c = (gH² − gL²·t²) / (gH² + gL²·t² + 1e-12)`. -/
noncomputable def attenC (gL gH t : ℝ) : ℝ :=
  (gH * gH - gL * gL * t * t) / (gH * gH + gL * gL * t * t + 1e-12)

/-- `AttenuationFilter::setCoefficients`.  The C++ body computes three
successive candidate coefficient sets; the first two (the `gRatio/k` design
and the `alpha` lowpass blend) are dead stores that are overwritten by the
final branch, mirrored here as unused bindings.  Only the final
`if |gL - gH| < 1e-6` branch determines the resulting coefficients. -/
noncomputable def AttenuationFilter.setCoefficients
    (gainLow gainHigh crossoverFreq sampleRate : ℝ) (s : AttenuationFilter) :
    AttenuationFilter :=
  let wc := 2 * piLit * crossoverFreq / sampleRate
  let t := Real.tan (wc * 0.5)
  let gRatio := gainHigh / (gainLow + 1e-12)
  let k := (1 - gRatio * t) / (1 + gRatio * t)
  let _b0Dead1 := gainLow * (1 + k) * 0.5 + gainLow * (1 - k) * 0.5 * gRatio
  let _b1Dead1 := gainLow * (1 - k) * 0.5 + gainLow * (1 + k) * 0.5 * gRatio
  let _p := (gainLow + gainHigh) * 0.5
  let _q := (gainLow - gainHigh) * 0.5
  let alpha := max 0 (min 1 (crossoverFreq / (sampleRate * 0.5)))
  let _b0Dead2 := gainLow * (1 - alpha) + gainHigh * alpha
  let _b1Dead2 := gainLow * alpha + gainHigh * (1 - alpha)
  let _a1Dead2 := -(2 * alpha - 1)
  let _cos_wc := Real.cos wc
  if |gainLow - gainHigh| < 1e-6 then
    { s with b0 := gainLow, b1 := 0, a1Coeff := 0 }
  else
    let c := attenC gainLow gainHigh t
    { s with
      a1Coeff := -c
      b0 := 0.5 * ((gainLow + gainHigh) + (gainLow - gainHigh) * c)
      b1 := 0.5 * ((gainLow + gainHigh) - (gainLow - gainHigh) * c) }

/-- `AttenuationFilter::process`: direct-form-I update
`y = b0·x + b1·z1 − a1·zOut1`, returning the output and the updated state. -/
noncomputable def AttenuationFilter.process (s : AttenuationFilter)
    (input : ℝ) : ℝ × AttenuationFilter :=
  let output := s.b0 * input + s.b1 * s.z1 - s.a1Coeff * s.zOut1
  (output, { s with z1 := input, zOut1 := output })

/-- The DC response `H(1) = (b0 + b1)/(1 + a1)` of the realised filter. -/
noncomputable def AttenuationFilter.dcResponse (s : AttenuationFilter) : ℝ :=
  (s.b0 + s.b1) / (1 + s.a1Coeff)

/-- The Nyquist response `H(-1) = (b0 - b1)/(1 - a1)` of the realised
filter. -/
noncomputable def AttenuationFilter.nyquistResponse (s : AttenuationFilter) : ℝ :=
  (s.b0 - s.b1) / (1 - s.a1Coeff)

lemma attenC_lt_one (gL gH t : ℝ) : attenC gL gH t < 1 := by
  unfold attenC
  have hD : (0:ℝ) < gH * gH + gL * gL * t * t + 1e-12 := by
    nlinarith [mul_self_nonneg gH, mul_self_nonneg (gL * t)]
  rw [div_lt_one hD]
  nlinarith [mul_self_nonneg (gL * t)]

lemma neg_one_lt_attenC (gL gH t : ℝ) : -1 < attenC gL gH t := by
  unfold attenC
  have hD : (0:ℝ) < gH * gH + gL * gL * t * t + 1e-12 := by
    nlinarith [mul_self_nonneg gH, mul_self_nonneg (gL * t)]
  rw [lt_div_iff₀ hD]
  nlinarith [mul_self_nonneg gH]

/-- C1 (amended): over the admissible gain and crossover ranges, the shelf
configured by `AttenuationFilter::setCoefficients` degenerates to the scalar
gain `gLow` (`b1 = 0`, `a1 = 0`) when `|gLow − gHigh| < 1e-6`; otherwise,
with `t = tan(wc/2)` and `c = (gHigh² − gLow²t²)/(gHigh² + gLow²t² + 1e-12)`,
it realises `a1 = −c` with DC response `H(1) = (gLow + gHigh)/(1 − c)` and
Nyquist response `H(−1) = (gLow − gHigh)·c/(1 + c)` (which differ in general
from `gLow` and `gHigh`); the stated responses are genuine steady-state
outputs of `AttenuationFilter::process` for constant and alternating unit
inputs. -/
theorem attenuationFilter_response_amended
    (gLow gHigh crossoverFreq sampleRate : ℝ) (s : AttenuationFilter)
    (hgL0 : 0 ≤ gLow) (hgL1 : gLow ≤ 0.9999)
    (hgH0 : 0 ≤ gHigh) (hgH1 : gHigh ≤ 0.9999)
    (hfc : 20 ≤ crossoverFreq) (hfcSR : crossoverFreq ≤ sampleRate * 0.49) :
    let f := AttenuationFilter.setCoefficients gLow gHigh crossoverFreq
      sampleRate s
    let t := Real.tan (2 * piLit * crossoverFreq / sampleRate * 0.5)
    let c := attenC gLow gHigh t
    (|gLow - gHigh| < 1e-6 → f.b0 = gLow ∧ f.b1 = 0 ∧ f.a1Coeff = 0) ∧
    (1e-6 ≤ |gLow - gHigh| →
      -1 < c ∧ c < 1 ∧ f.a1Coeff = -c ∧
      f.dcResponse = (gLow + gHigh) / (1 - c) ∧
      f.nyquistResponse = (gLow - gHigh) * c / (1 + c) ∧
      (AttenuationFilter.process { f with z1 := 1, zOut1 := f.dcResponse }
        1).1 = f.dcResponse ∧
      (AttenuationFilter.process
        { f with z1 := -1, zOut1 := -f.nyquistResponse } 1).1 =
        f.nyquistResponse) := by
  intro f t c
  constructor
  · intro hdeg
    have hf : f = { s with b0 := gLow, b1 := 0, a1Coeff := 0 } := by
      show AttenuationFilter.setCoefficients gLow gHigh crossoverFreq
        sampleRate s = _
      unfold AttenuationFilter.setCoefficients
      simp only [if_pos hdeg]
    rw [hf]
    exact ⟨rfl, rfl, rfl⟩
  · intro hsep
    have hf : f = { s with
        a1Coeff := -c
        b0 := 0.5 * ((gLow + gHigh) + (gLow - gHigh) * c)
        b1 := 0.5 * ((gLow + gHigh) - (gLow - gHigh) * c) } := by
      show AttenuationFilter.setCoefficients gLow gHigh crossoverFreq
        sampleRate s = _
      unfold AttenuationFilter.setCoefficients
      simp only [if_neg (not_lt.mpr hsep)]
    have hc1 : c < 1 := attenC_lt_one _ _ _
    have hc2 : -1 < c := neg_one_lt_attenC _ _ _
    have hne1 : 1 + -c ≠ 0 := by intro h; nlinarith
    have hne2 : 1 - -c ≠ 0 := by intro h; nlinarith
    have hdc : f.dcResponse = (gLow + gHigh) / (1 - c) := by
      rw [hf]
      unfold AttenuationFilter.dcResponse
      simp only
      rw [show 0.5 * ((gLow + gHigh) + (gLow - gHigh) * c) +
        0.5 * ((gLow + gHigh) - (gLow - gHigh) * c) = gLow + gHigh by ring,
        show 1 + -c = 1 - c by ring]
    have hny : f.nyquistResponse = (gLow - gHigh) * c / (1 + c) := by
      rw [hf]
      unfold AttenuationFilter.nyquistResponse
      simp only
      rw [show 0.5 * ((gLow + gHigh) + (gLow - gHigh) * c) -
        0.5 * ((gLow + gHigh) - (gLow - gHigh) * c) = (gLow - gHigh) * c
        by ring, show 1 - -c = 1 + c by ring]
    have h1c : (1:ℝ) - c ≠ 0 := by intro h; nlinarith
    have h1c' : (1:ℝ) + c ≠ 0 := by intro h; nlinarith
    refine ⟨hc2, hc1, by rw [hf], hdc, hny, ?_, ?_⟩
    · unfold AttenuationFilter.process
      simp only
      rw [hdc, hf]
      simp only
      field_simp [h1c]
      ring
    · unfold AttenuationFilter.process
      simp only
      rw [hny, hf]
      simp only
      field_simp [h1c']
      ring

/-- C1 (counterexample): at `gLow = 1/2`, `gHigh = 1/10`,
`fc = 11025 Hz`, `SR = 44100 Hz` (so `fc ∈ [20, 0.49·SR]` and both gains lie
in `[0, 0.9999]` with `|gLow − gHigh| ≥ 1e-6`), the filter configured by
`AttenuationFilter::setCoefficients` does not satisfy
`H(1) = gLow ∧ H(−1) = gHigh`: its DC response differs from `gLow`. -/
theorem attenuationFilter_dc_response_counterexample :
    ¬ ((AttenuationFilter.setCoefficients (1/2) (1/10) 11025 44100
          ⟨1, 0, 0, 0, 0⟩).dcResponse = 1/2 ∧
       (AttenuationFilter.setCoefficients (1/2) (1/10) 11025 44100
          ⟨1, 0, 0, 0, 0⟩).nyquistResponse = 1/10) := by
  rintro ⟨hdc, -⟩
  unfold AttenuationFilter.setCoefficients at hdc
  rw [if_neg (by
    rw [show ((1:ℝ)/2 - 1/10) = 2/5 by norm_num,
      abs_of_pos (by norm_num : (0:ℝ) < 2/5)]
    norm_num)] at hdc
  unfold AttenuationFilter.dcResponse at hdc
  simp only at hdc
  set t := Real.tan (2 * piLit * 11025 / 44100 * 0.5) with hts
  have harg : 2 * piLit * 11025 / 44100 * 0.5 = 0.7853981625 := by
    norm_num [piLit]
  have hpi2 : (0.7853981625:ℝ) < Real.pi / 2 := by
    have h := Real.pi_gt_d6
    linarith
  have ht : (0.7853981625:ℝ) < t := by
    rw [hts, harg]
    exact Real.lt_tan (by norm_num) hpi2
  set C := attenC (1/2) (1/10) t with hCs
  have hC1 : C < 1 := attenC_lt_one _ _ _
  have hne : 1 + -C ≠ 0 := by intro h; nlinarith
  rw [div_eq_iff hne] at hdc
  have hCval : C = -(1/5) := by linarith
  have hD : (0:ℝ) < 1/10 * (1/10) + 1/2 * (1/2) * t * t + 1e-12 := by
    nlinarith [mul_self_nonneg t]
  rw [hCs] at hCval
  unfold attenC at hCval
  rw [div_eq_iff (ne_of_gt hD)] at hCval
  nlinarith [ht, sq_nonneg (t - 0.7853981625)]

/-- Witness for `attenuationFilter_response_amended` at `gLow = 1/2`,
`gHigh = 1/10`, `fc = 11025`, `SR = 44100`. -/
theorem attenuationFilter_response_amended_witness :
    (0 ≤ (1/2:ℝ)) ∧ ((1/2:ℝ) ≤ 0.9999) ∧ (0 ≤ (1/10:ℝ)) ∧
    ((1/10:ℝ) ≤ 0.9999) ∧ (20 ≤ (11025:ℝ)) ∧ ((11025:ℝ) ≤ 44100 * 0.49) ∧
    (let f := AttenuationFilter.setCoefficients (1/2) (1/10) 11025 44100
      ⟨1, 0, 0, 0, 0⟩
     let t := Real.tan (2 * piLit * 11025 / 44100 * 0.5)
     let c := attenC (1/2) (1/10) t
     (|(1/2:ℝ) - 1/10| < 1e-6 → f.b0 = 1/2 ∧ f.b1 = 0 ∧ f.a1Coeff = 0) ∧
     (1e-6 ≤ |(1/2:ℝ) - 1/10| →
       -1 < c ∧ c < 1 ∧ f.a1Coeff = -c ∧
       f.dcResponse = (1/2 + 1/10) / (1 - c) ∧
       f.nyquistResponse = (1/2 - 1/10) * c / (1 + c) ∧
       (AttenuationFilter.process { f with z1 := 1, zOut1 := f.dcResponse }
         1).1 = f.dcResponse ∧
       (AttenuationFilter.process
         { f with z1 := -1, zOut1 := -f.nyquistResponse } 1).1 =
         f.nyquistResponse)) :=
  ⟨by norm_num, by norm_num, by norm_num, by norm_num, by norm_num,
    by norm_num,
    attenuationFilter_response_amended (1/2) (1/10) 11025 44100 ⟨1, 0, 0, 0, 0⟩
      (by norm_num) (by norm_num) (by norm_num) (by norm_num) (by norm_num)
      (by norm_num)⟩

/-! ## FeedbackMatrix (Source/DSP/FeedbackMatrix.h) -/

/-- The 32-bit linear congruential generator
`x ← 1664525·x + 1013904223 (mod 2³²)` used for all sign masks and velvet
sequences. -/
def lcg (s : ℕ) : ℕ := (s * 1664525 + 1013904223) % 4294967296

/-- The LCG stream of the `FeedbackMatrix` constructor: `fmRng n` is the
state after `n` updates of the seed `0x12345678`. -/
def fmRng (n : ℕ) : ℕ := lcg^[n] 0x12345678

/-- Per-row input sign (`inputSigns[i]`): the constructor advances the LCG
once before reading each sign, input signs first, so row `i` uses stream
value `2i+1`; the sign is `-1` iff bit 31 (`rng & 0x80000000`) is set. -/
def inputSignZ (i : Fin 8) : ℤ :=
  if Nat.testBit (fmRng (2 * i.val + 1)) 31 then -1 else 1

/-- Per-row output sign (`outputSigns[i]`), from stream value `2i+2`. -/
def outputSignZ (i : Fin 8) : ℤ :=
  if Nat.testBit (fmRng (2 * i.val + 2)) 31 then -1 else 1

/-- The Sylvester doubling `H_{2k} = [[H_k, H_k], [H_k, -H_k]]` of the
`FeedbackMatrix` constructor, as a recursion on the number of doublings:
`sylv k` is the (unnormalised) `2^k × 2^k` Hadamard matrix. -/
def sylv : ℕ → ℕ → ℕ → ℤ
  | 0, _, _ => 1
  | k + 1, i, j =>
    if i < 2 ^ k then
      if j < 2 ^ k then sylv k i j else sylv k i (j - 2 ^ k)
    else
      if j < 2 ^ k then sylv k (i - 2 ^ k) j else -sylv k (i - 2 ^ k) (j - 2 ^ k)

/-- Entry `matrix[i][j] = h[i][j] / √8` of the normalised 8×8 Hadamard. -/
noncomputable def FeedbackMatrix.entry (i j : Fin 8) : ℝ :=
  (sylv 3 i.val j.val : ℝ) * (1 / Real.sqrt 8)

/-- `FeedbackMatrix::process`:
`output[i] = outputSigns[i] * Σ_j matrix[i][j] * inputSigns[j] * input[j]`. -/
noncomputable def FeedbackMatrix.process (input : Fin 8 → ℝ) : Fin 8 → ℝ :=
  fun i => (outputSignZ i : ℝ) *
    ∑ j, FeedbackMatrix.entry i j * (inputSignZ j : ℝ) * input j

/-- The integer matrix `S_out · H · S_in` (the full signed, unnormalised
matrix applied by `FeedbackMatrix::process`). -/
def fmCombined : Matrix (Fin 8) (Fin 8) ℤ :=
  Matrix.of fun i j => outputSignZ i * sylv 3 i.val j.val * inputSignZ j

lemma fmCombined_orthogonal :
    fmCombined.transpose * fmCombined = (8 : ℤ) • 1 := by
  decide

lemma process_eq_mulVec (v : Fin 8 → ℝ) (i : Fin 8) :
    FeedbackMatrix.process v i =
      (fmCombined.map (Int.castRingHom ℝ : ℤ → ℝ)).mulVec v i / Real.sqrt 8 := by
  unfold FeedbackMatrix.process FeedbackMatrix.entry fmCombined
  rw [Matrix.mulVec, Matrix.dotProduct, Finset.sum_div, Finset.mul_sum]
  refine Finset.sum_congr rfl fun j _ => ?_
  simp only [Matrix.map_apply, Matrix.of_apply, Int.coe_castRingHom]
  push_cast
  ring

lemma fm_process_energy (v : Fin 8 → ℝ) :
    ∑ i, (FeedbackMatrix.process v i) ^ 2 = ∑ i, (v i) ^ 2 := by
  set A : Matrix (Fin 8) (Fin 8) ℝ :=
    fmCombined.map (Int.castRingHom ℝ : ℤ → ℝ) with hAdef
  have hATA : A.transpose * A = (8 : ℝ) • 1 := by
    rw [hAdef, ← Matrix.transpose_map, ← Matrix.map_mul, fmCombined_orthogonal]
    ext i j
    simp only [Matrix.map_apply, Matrix.smul_apply, Matrix.one_apply,
      smul_eq_mul, Int.coe_castRingHom]
    split_ifs <;> push_cast <;> ring
  have h8 : Real.sqrt 8 ^ 2 = 8 := Real.sq_sqrt (by norm_num)
  have hdot : Matrix.dotProduct (A.mulVec v) (A.mulVec v) =
      8 * ∑ i, (v i) ^ 2 := by
    rw [Matrix.dotProduct_mulVec]
    have hvm : Matrix.vecMul (A.mulVec v) A =
        A.transpose.mulVec (A.mulVec v) := by
      rw [← Matrix.transpose_transpose A, Matrix.vecMul_transpose,
        Matrix.transpose_transpose]
    rw [hvm, Matrix.mulVec_mulVec, hATA, Matrix.smul_mulVec_assoc,
      Matrix.one_mulVec, Matrix.smul_dotProduct]
    simp only [Matrix.dotProduct, smul_eq_mul, Finset.mul_sum]
    exact Finset.sum_congr rfl fun i _ => by ring
  calc ∑ i, (FeedbackMatrix.process v i) ^ 2
      = ∑ i, (A.mulVec v i) ^ 2 / 8 := by
        refine Finset.sum_congr rfl fun i _ => ?_
        rw [process_eq_mulVec, div_pow, h8]
    _ = Matrix.dotProduct (A.mulVec v) (A.mulVec v) / 8 := by
        rw [Matrix.dotProduct, ← Finset.sum_div]
        congr 1
        exact Finset.sum_congr rfl fun i _ => by ring
    _ = ∑ i, (v i) ^ 2 := by rw [hdot]; ring

/-- C2: `FeedbackMatrix::process` preserves the Euclidean norm exactly —
for every real 8-vector `v`, `Σ (M·v)² = Σ v²`, and in particular the spec's
tolerance `|‖M·v‖² − ‖v‖²| ≤ 1e-2·‖v‖²` holds. -/
theorem feedbackMatrix_energy_preservation (v : Fin 8 → ℝ) :
    (∑ i, (FeedbackMatrix.process v i) ^ 2 = ∑ i, (v i) ^ 2) ∧
    |∑ i, (FeedbackMatrix.process v i) ^ 2 - ∑ i, (v i) ^ 2| ≤
      1e-2 * ∑ i, (v i) ^ 2 := by
  refine ⟨fm_process_energy v, ?_⟩
  rw [fm_process_energy v, sub_self, abs_zero]
  have hnn : (0:ℝ) ≤ ∑ i, (v i) ^ 2 :=
    Finset.sum_nonneg fun i _ => sq_nonneg _
  nlinarith

/-! ## FDNReverb step 5: diffusion blend (Source/DSP/FDNReverb.h) -/

/-- Step 5 of `FDNReverb::processSample`: identity for `d < 0.001`, full
matrix for `d > 0.999`, otherwise the blend
`b = (1−d)·a + d·M·a` followed by the energy renormalisation
`b ← b·√(energyIn/energyOut)`, which the code only applies when both
energies exceed `1e-10`. -/
noncomputable def fdnFeedbackMix (d : ℝ) (a : Fin 8 → ℝ) : Fin 8 → ℝ :=
  if d < 0.001 then a
  else if d > 0.999 then FeedbackMatrix.process a
  else
    let fullMix := FeedbackMatrix.process a
    let energyIn := ∑ i, a i * a i
    let feedback := fun i => (1 - d) * a i + d * fullMix i
    let energyOut := ∑ i, feedback i * feedback i
    if energyOut > 1e-10 ∧ energyIn > 1e-10 then
      fun i => feedback i * Real.sqrt (energyIn / energyOut)
    else feedback

/-- C3 (amended): the degenerate branches return `a` and `M·a` as the claim
states; in the blend branch the renormalised feedback has exactly the energy
(and hence the Euclidean norm) of `a` — but only when both guards
`‖a‖² > 1e-10` and `‖b‖² > 1e-10` of the code hold; otherwise the
unnormalised blend is returned. -/
theorem fdn_diffusion_norm_amended (d : ℝ) (a : Fin 8 → ℝ) :
    (d < 0.001 → fdnFeedbackMix d a = a) ∧
    (d > 0.999 → fdnFeedbackMix d a = FeedbackMatrix.process a) ∧
    (0.001 ≤ d → d ≤ 0.999 →
      (1e-10 : ℝ) < ∑ i, a i * a i →
      (1e-10 : ℝ) < ∑ i, ((1 - d) * a i + d * FeedbackMatrix.process a i) *
        ((1 - d) * a i + d * FeedbackMatrix.process a i) →
      (∑ i, fdnFeedbackMix d a i * fdnFeedbackMix d a i = ∑ i, a i * a i) ∧
      Real.sqrt (∑ i, fdnFeedbackMix d a i * fdnFeedbackMix d a i) =
        Real.sqrt (∑ i, a i * a i)) := by
  refine ⟨fun h => by rw [fdnFeedbackMix, if_pos h], fun h => ?_, ?_⟩
  · rw [fdnFeedbackMix, if_neg (by linarith), if_pos h]
  · intro hd1 hd2 hin hout
    have hbranch : fdnFeedbackMix d a = fun i =>
        ((1 - d) * a i + d * FeedbackMatrix.process a i) *
          Real.sqrt ((∑ i, a i * a i) /
            ∑ i, ((1 - d) * a i + d * FeedbackMatrix.process a i) *
              ((1 - d) * a i + d * FeedbackMatrix.process a i)) := by
      rw [fdnFeedbackMix, if_neg (by linarith), if_neg (by linarith)]
      simp only
      rw [if_pos ⟨hout, hin⟩]
    have houtpos : (0:ℝ) <
        ∑ i, ((1 - d) * a i + d * FeedbackMatrix.process a i) *
          ((1 - d) * a i + d * FeedbackMatrix.process a i) := by
      linarith
    have hinpos : (0:ℝ) < ∑ i, a i * a i := by linarith
    have hsq : Real.sqrt ((∑ i, a i * a i) /
          ∑ i, ((1 - d) * a i + d * FeedbackMatrix.process a i) *
            ((1 - d) * a i + d * FeedbackMatrix.process a i)) *
        Real.sqrt ((∑ i, a i * a i) /
          ∑ i, ((1 - d) * a i + d * FeedbackMatrix.process a i) *
            ((1 - d) * a i + d * FeedbackMatrix.process a i)) =
        (∑ i, a i * a i) /
          ∑ i, ((1 - d) * a i + d * FeedbackMatrix.process a i) *
            ((1 - d) * a i + d * FeedbackMatrix.process a i) :=
      Real.mul_self_sqrt (div_nonneg hinpos.le houtpos.le)
    have hmain : ∑ i, fdnFeedbackMix d a i * fdnFeedbackMix d a i =
        ∑ i, a i * a i := by
      rw [hbranch]
      simp only
      calc ∑ i, ((1 - d) * a i + d * FeedbackMatrix.process a i) *
              Real.sqrt _ *
            (((1 - d) * a i + d * FeedbackMatrix.process a i) *
              Real.sqrt _)
          = (∑ i, ((1 - d) * a i + d * FeedbackMatrix.process a i) *
              ((1 - d) * a i + d * FeedbackMatrix.process a i)) *
            (Real.sqrt _ * Real.sqrt _) := by
            rw [Finset.sum_mul]
            exact Finset.sum_congr rfl fun i _ => by ring
        _ = ∑ i, a i * a i := by
            rw [hsq]
            field_simp
    exact ⟨hmain, by rw [hmain]⟩

/-- The 8-vector with `ε` in channel 0 and zeros elsewhere. -/
noncomputable def e0vec (ε : ℝ) : Fin 8 → ℝ := fun i => if i = 0 then ε else 0

lemma sylv_col0 : ∀ i : Fin 8, sylv 3 i.val 0 = 1 := by decide

lemma inputSignZ_zero : inputSignZ 0 = 1 := by decide

lemma outputSignZ_zero : outputSignZ 0 = -1 := by decide

lemma e0vec_sum_sq (ε : ℝ) : ∑ i, e0vec ε i * e0vec ε i = ε * ε := by
  simp [e0vec, Fin.sum_univ_eight]

lemma process_e0vec (ε : ℝ) (i : Fin 8) :
    FeedbackMatrix.process (e0vec ε) i =
      (outputSignZ i : ℝ) * (ε * (1 / Real.sqrt 8)) := by
  unfold FeedbackMatrix.process FeedbackMatrix.entry e0vec
  rw [Finset.sum_eq_single (0 : Fin 8)]
  · rw [if_pos rfl]
    simp only [Fin.val_zero]
    rw [sylv_col0 i, inputSignZ_zero]
    push_cast
    ring
  · intro j _ hj
    rw [if_neg hj, mul_zero]
  · intro h
    exact absurd (Finset.mem_univ _) h

lemma e0_cross (ε : ℝ) :
    ∑ i, e0vec ε i * FeedbackMatrix.process (e0vec ε) i =
      -(ε * ε) * (1 / Real.sqrt 8) := by
  rw [Fin.sum_univ_eight]
  simp [e0vec, process_e0vec, outputSignZ_zero]
  ring

lemma e0_MM (ε : ℝ) :
    ∑ i, FeedbackMatrix.process (e0vec ε) i *
      FeedbackMatrix.process (e0vec ε) i = ε * ε := by
  calc ∑ i, FeedbackMatrix.process (e0vec ε) i *
        FeedbackMatrix.process (e0vec ε) i
      = ∑ i, (FeedbackMatrix.process (e0vec ε) i) ^ 2 :=
        Finset.sum_congr rfl fun i _ => (sq _).symm
    _ = ∑ i, (e0vec ε i) ^ 2 := fm_process_energy _
    _ = ε * ε := by simp [e0vec, Fin.sum_univ_eight, sq]

lemma e0_blend_energy (ε : ℝ) :
    ∑ i, ((1 - 0.5) * e0vec ε i + 0.5 * FeedbackMatrix.process (e0vec ε) i) *
        ((1 - 0.5) * e0vec ε i + 0.5 * FeedbackMatrix.process (e0vec ε) i) =
      ε * ε * (0.5 - 0.5 * (1 / Real.sqrt 8)) := by
  have hexp : ∀ i : Fin 8,
      ((1 - 0.5) * e0vec ε i + 0.5 * FeedbackMatrix.process (e0vec ε) i) *
        ((1 - 0.5) * e0vec ε i + 0.5 * FeedbackMatrix.process (e0vec ε) i) =
      0.25 * (e0vec ε i * e0vec ε i) +
        0.5 * (e0vec ε i * FeedbackMatrix.process (e0vec ε) i) +
        0.25 * (FeedbackMatrix.process (e0vec ε) i *
          FeedbackMatrix.process (e0vec ε) i) := fun i => by ring
  rw [Finset.sum_congr rfl fun i _ => hexp i]
  simp only [Finset.sum_add_distrib, ← Finset.mul_sum]
  rw [e0vec_sum_sq, e0_cross, e0_MM]
  ring

lemma sqrt8_ge_two : (2:ℝ) ≤ Real.sqrt 8 := by
  nlinarith [Real.sq_sqrt (show (0:ℝ) ≤ 8 by norm_num), Real.sqrt_nonneg 8]

lemma sqrt8_inv_bounds : 0 < 1 / Real.sqrt 8 ∧ 1 / Real.sqrt 8 ≤ 1 / 2 := by
  have hpos : (0:ℝ) < Real.sqrt 8 := lt_of_lt_of_le (by norm_num) sqrt8_ge_two
  constructor
  · positivity
  · rw [div_le_div_iff₀ hpos (by norm_num)]
    linarith [sqrt8_ge_two]

/-- Witness for `fdn_diffusion_norm_amended` at `d = 0.5` and the unit
vector in channel 0. -/
theorem fdn_diffusion_norm_amended_witness :
    ((0.001:ℝ) ≤ 0.5) ∧ ((0.5:ℝ) ≤ 0.999) ∧
    ((1e-10:ℝ) < ∑ i, e0vec 1 i * e0vec 1 i) ∧
    ((1e-10:ℝ) < ∑ i, ((1 - 0.5) * e0vec 1 i +
        0.5 * FeedbackMatrix.process (e0vec 1) i) *
      ((1 - 0.5) * e0vec 1 i + 0.5 * FeedbackMatrix.process (e0vec 1) i)) ∧
    ((∑ i, fdnFeedbackMix 0.5 (e0vec 1) i * fdnFeedbackMix 0.5 (e0vec 1) i =
        ∑ i, e0vec 1 i * e0vec 1 i) ∧
      Real.sqrt (∑ i, fdnFeedbackMix 0.5 (e0vec 1) i *
          fdnFeedbackMix 0.5 (e0vec 1) i) =
        Real.sqrt (∑ i, e0vec 1 i * e0vec 1 i)) := by
  have hin : (1e-10:ℝ) < ∑ i, e0vec 1 i * e0vec 1 i := by
    rw [e0vec_sum_sq]; norm_num
  have hout : (1e-10:ℝ) < ∑ i, ((1 - 0.5) * e0vec 1 i +
      0.5 * FeedbackMatrix.process (e0vec 1) i) *
      ((1 - 0.5) * e0vec 1 i + 0.5 * FeedbackMatrix.process (e0vec 1) i) := by
    rw [e0_blend_energy]
    have h := sqrt8_inv_bounds
    nlinarith [h.1, h.2]
  exact ⟨by norm_num, by norm_num, hin, hout,
    (fdn_diffusion_norm_amended 0.5 (e0vec 1)).2.2 (by norm_num) (by norm_num)
      hin hout⟩

/-- C3 (counterexample): at diffusion `d = 0.5` and the attenuated vector
with `1e-6` in channel 0 (so `‖a‖² = 1e-12 ≤ 1e-10` and the code skips the
renormalisation), the feedback vector produced by step 5 of
`FDNReverb::processSample` does not have the Euclidean norm of `a`. -/
theorem fdn_diffusion_norm_counterexample :
    (∑ i, fdnFeedbackMix 0.5 (e0vec 1e-6) i *
        fdnFeedbackMix 0.5 (e0vec 1e-6) i ≠
      ∑ i, e0vec 1e-6 i * e0vec 1e-6 i) ∧
    Real.sqrt (∑ i, fdnFeedbackMix 0.5 (e0vec 1e-6) i *
        fdnFeedbackMix 0.5 (e0vec 1e-6) i) ≠
      Real.sqrt (∑ i, e0vec 1e-6 i * e0vec 1e-6 i) := by
  have hbranch : fdnFeedbackMix 0.5 (e0vec 1e-6) = fun i =>
      (1 - 0.5) * e0vec 1e-6 i +
        0.5 * FeedbackMatrix.process (e0vec 1e-6) i := by
    rw [fdnFeedbackMix, if_neg (by norm_num), if_neg (by norm_num)]
    simp only
    rw [if_neg]
    rintro ⟨-, hin⟩
    rw [e0vec_sum_sq] at hin
    norm_num at hin
  have hmix : ∑ i, fdnFeedbackMix 0.5 (e0vec 1e-6) i *
      fdnFeedbackMix 0.5 (e0vec 1e-6) i =
      1e-6 * 1e-6 * (0.5 - 0.5 * (1 / Real.sqrt 8)) := by
    rw [hbranch]
    exact e0_blend_energy 1e-6
  have hb := sqrt8_inv_bounds
  have hlt : ∑ i, fdnFeedbackMix 0.5 (e0vec 1e-6) i *
      fdnFeedbackMix 0.5 (e0vec 1e-6) i <
      ∑ i, e0vec 1e-6 i * e0vec 1e-6 i := by
    rw [hmix, e0vec_sum_sq]
    nlinarith [hb.1, hb.2]
  have hnn : (0:ℝ) ≤ ∑ i, fdnFeedbackMix 0.5 (e0vec 1e-6) i *
      fdnFeedbackMix 0.5 (e0vec 1e-6) i := by
    rw [hmix]
    nlinarith [hb.1, hb.2]
  exact ⟨ne_of_lt hlt, ne_of_lt (Real.sqrt_lt_sqrt hnn hlt)⟩

/-! ## DelayLine (Source/DSP/DelayLine.h)

The delay line is exact rational arithmetic (stores, index arithmetic and
the Lagrange weights), so it is embedded over `ℚ` and stays executable. -/

/-- Circular buffer with write index and current fractional delay. -/
structure DelayLine where
  buffer : List ℚ
  bufferSize : ℤ
  writePos : ℤ
  currentDelay : ℚ
  deriving DecidableEq

/-- `DelayLine::prepare`: buffer of `maxDelaySamples + 4` zeros
(interpolation margin), write position 0. -/
def DelayLine.prepare (maxDelaySamples : ℤ) : DelayLine :=
  { buffer := List.replicate (maxDelaySamples + 4).toNat 0
    bufferSize := maxDelaySamples + 4
    writePos := 0
    currentDelay := 0 }

/-- `DelayLine::setDelay`: stores the requested delay unchanged (no
clamping happens here). -/
def DelayLine.setDelay (dl : DelayLine) (delaySamples : ℚ) : DelayLine :=
  { dl with currentDelay := delaySamples }

/-- `DelayLine::write`: store at the write index and advance modulo the
buffer size. -/
def DelayLine.write (dl : DelayLine) (sample : ℚ) : DelayLine :=
  { dl with
    buffer := dl.buffer.set dl.writePos.toNat sample
    writePos := (dl.writePos + 1) % dl.bufferSize }

/-- The result of the `while (readPos < 0) readPos += bufferSize;` loop of
`DelayLine::read`, in closed form: a negative position is advanced by the
least multiple of `bufferSize` making it nonnegative. -/
def wrapNonneg (bufferSize readPos : ℚ) : ℚ :=
  if readPos < 0 then readPos + bufferSize * ⌈-readPos / bufferSize⌉
  else readPos

/-- `wrapNonneg` satisfies the defining equation of the C++ `while` loop,
so it is the (total) function the loop computes. -/
lemma wrapNonneg_loop (B rp : ℚ) (hB : 0 < B) :
    wrapNonneg B rp = if rp < 0 then wrapNonneg B (rp + B) else rp := by
  by_cases h : rp < 0
  · rw [if_pos h]
    by_cases h2 : rp + B < 0
    · unfold wrapNonneg
      rw [if_pos h, if_pos h2]
      have he : -(rp + B) / B = -rp / B - 1 := by
        field_simp
        ring
      rw [he, Int.ceil_sub_one]
      push_cast
      ring
    · unfold wrapNonneg
      rw [if_pos h, if_neg h2]
      have hceil : ⌈-rp / B⌉ = 1 := by
        rw [Int.ceil_eq_iff]
        constructor
        · norm_num
          exact div_pos (by linarith) hB
        · push_cast
          rw [div_le_one hB]
          linarith
      rw [hceil]
      push_cast
      ring
  · rw [if_neg h]
    unfold wrapNonneg
    rw [if_neg h]

/-- `DelayLine::read`: Lagrange-3 interpolation at
`readPos = writePos − currentDelay − 1`, wrapped into the buffer; the four
taps are read modulo `bufferSize` and combined with the cubic Lagrange
weights (denominators −6, 2, −2, 6 as in the source). -/
def DelayLine.read (dl : DelayLine) : ℚ :=
  let readPos := wrapNonneg (dl.bufferSize : ℚ)
    ((dl.writePos : ℚ) - dl.currentDelay - 1)
  let intPart : ℤ := ⌊readPos⌋
  let frac : ℚ := readPos - (intPart : ℚ)
  let y0 := dl.buffer.getD ((intPart - 1 + dl.bufferSize) % dl.bufferSize).toNat 0
  let y1 := dl.buffer.getD (intPart % dl.bufferSize).toNat 0
  let y2 := dl.buffer.getD ((intPart + 1) % dl.bufferSize).toNat 0
  let y3 := dl.buffer.getD ((intPart + 2) % dl.bufferSize).toNat 0
  let d0 := frac + 1
  let d1 := frac
  let d2 := frac - 1
  let d3 := frac - 2
  y0 * (d1 * d2 * d3) / (-6) + y1 * (d0 * d2 * d3) / 2 +
    y2 * (d0 * d1 * d3) / (-2) + y3 * (d0 * d1 * d2) / 6

lemma wrap_shift (B x : ℚ) (hB : 0 < B) (hx : x < B) :
    wrapNonneg B (x - B) = wrapNonneg B x := by
  unfold wrapNonneg
  rw [if_pos (by linarith : x - B < 0)]
  by_cases hx0 : x < 0
  · rw [if_pos hx0]
    have he : -(x - B) / B = -x / B + 1 := by
      field_simp
      ring
    rw [he, Int.ceil_add_one]
    push_cast
    ring
  · rw [if_neg hx0]
    have hceil : ⌈-(x - B) / B⌉ = 1 := by
      rw [Int.ceil_eq_iff]
      constructor
      · norm_num
        exact div_pos (by linarith) hB
      · push_cast
        rw [div_le_one hB]
        linarith
    rw [hceil]
    push_cast
    ring

/-- C4 (amended): `DelayLine::read` is total for every configured delay, but
an out-of-range delay wraps modulo the buffer size instead of saturating:
for any state with the write index inside the buffer and any `D ≥ 0`,
reading at delay `D + bufferSize` returns exactly the sample read at delay
`D`. -/
theorem delayLine_read_wrap_amended (dl : DelayLine) (D : ℚ)
    (hB : 0 < dl.bufferSize) (hwp : (dl.writePos : ℚ) < (dl.bufferSize : ℚ))
    (hD : 0 ≤ D) :
    (dl.setDelay (D + (dl.bufferSize : ℚ))).read = (dl.setDelay D).read := by
  unfold DelayLine.read DelayLine.setDelay
  simp only
  have hBQ : (0:ℚ) < (dl.bufferSize : ℚ) := by exact_mod_cast hB
  have hx : (dl.writePos : ℚ) - D - 1 < (dl.bufferSize : ℚ) := by linarith
  rw [show (dl.writePos : ℚ) - (D + (dl.bufferSize : ℚ)) - 1 =
    ((dl.writePos : ℚ) - D - 1) - (dl.bufferSize : ℚ) by ring,
    wrap_shift _ _ hBQ hx]

/-- The delay line prepared with `maxDelaySamples = 4` (so buffer size 8)
after writing the samples `1, 2, ..., 8`. -/
def dlTestState : DelayLine :=
  (((((((((DelayLine.prepare 4).write 1).write 2).write 3).write 4).write
    5).write 6).write 7).write 8)

/-- Witness for `delayLine_read_wrap_amended` on `dlTestState` at `D = 0`. -/
theorem delayLine_read_wrap_amended_witness :
    (0 < dlTestState.bufferSize) ∧
    ((dlTestState.writePos : ℚ) < (dlTestState.bufferSize : ℚ)) ∧
    ((0:ℚ) ≤ 0) ∧
    (dlTestState.setDelay (0 + (dlTestState.bufferSize : ℚ))).read =
      (dlTestState.setDelay 0).read :=
  ⟨by decide, by norm_num [dlTestState, DelayLine.prepare, DelayLine.write],
    le_refl 0,
    delayLine_read_wrap_amended dlTestState 0 (by decide)
      (by norm_num [dlTestState, DelayLine.prepare, DelayLine.write])
      (le_refl 0)⟩

/-- C4 (counterexample): in `dlTestState` the maximum delay established at
prepare is 4 (buffer bound 8).  Reading at the out-of-range delay `D = 8`
yields the sample 8 — the same as reading at delay `0` (wrap-around) — and
not the sample obtained by clamping the delay to the bound 4 (which reads
4) nor to `bufferSize − 1 = 7` (which reads 1).  So out-of-range delays
alias instead of saturating. -/
theorem delayLine_read_clamp_counterexample :
    (dlTestState.setDelay 8).read ≠ (dlTestState.setDelay 4).read ∧
    (dlTestState.setDelay 8).read ≠ (dlTestState.setDelay 7).read ∧
    (dlTestState.setDelay 8).read = (dlTestState.setDelay 0).read := by
  have hstate : dlTestState = ⟨[1, 2, 3, 4, 5, 6, 7, 8], 8, 0, 0⟩ := by
    decide
  have hceil98 : ⌈(9:ℚ)/8⌉ = 2 := by norm_num [Int.ceil_eq_iff]
  have hceil58 : ⌈(5:ℚ)/8⌉ = 1 := by norm_num [Int.ceil_eq_iff]
  have hceil18 : ⌈(1:ℚ)/8⌉ = 1 := by norm_num [Int.ceil_eq_iff]
  have hceil88 : ⌈(8:ℚ)/8⌉ = 1 := by norm_num [Int.ceil_eq_iff]
  have h8 : (dlTestState.setDelay 8).read = 8 := by
    rw [DelayLine.read, hstate]
    norm_num [DelayLine.setDelay, wrapNonneg, hceil98, Int.fract]
    rfl
  have h4 : (dlTestState.setDelay 4).read = 4 := by
    rw [DelayLine.read, hstate]
    norm_num [DelayLine.setDelay, wrapNonneg, hceil58, Int.fract]
    rfl
  have h7 : (dlTestState.setDelay 7).read = 1 := by
    rw [DelayLine.read, hstate]
    norm_num [DelayLine.setDelay, wrapNonneg, hceil88, Int.fract]
  have h0 : (dlTestState.setDelay 0).read = 8 := by
    rw [DelayLine.read, hstate]
    norm_num [DelayLine.setDelay, wrapNonneg, hceil18, Int.fract]
    rfl
  refine ⟨?_, ?_, ?_⟩
  · rw [h8, h4]; norm_num
  · rw [h8, h7]; norm_num
  · rw [h8, h0]

/-! ## SaturationToneFilter (Source/DSP/SaturationToneFilter.h) -/

/-- State of `SaturationToneFilter`: sample rate, tone in `[-1, 1]`,
one-pole lowpass coefficient and state, and the active flag. -/
structure SaturationToneFilter where
  sr : ℝ
  tone : ℝ
  lpCoeff : ℝ
  lpState : ℝ
  isActive : Bool

/-- `SaturationToneFilter::prepare`: store the sample rate and reset the
lowpass state. -/
def SaturationToneFilter.prepare (f : SaturationToneFilter)
    (sampleRate : ℝ) : SaturationToneFilter :=
  { f with sr := sampleRate, lpState := 0 }

/-- `SaturationToneFilter::setTone`: percent scaling, deactivation below
`|tone| < 0.01`, the tone-to-frequency map (dark `1k..8k`, bright `8k..4k`),
the `std::clamp (freq, 200, sr·0.49)` and `lpCoeff = w/(1+w)` with
`w = 2π·freq/sr`. -/
noncomputable def SaturationToneFilter.setTone (f : SaturationToneFilter)
    (tonePercent : ℝ) : SaturationToneFilter :=
  let tone := tonePercent * 0.01
  if |tone| < 0.01 then { f with tone := tone, isActive := false }
  else
    let freq := if tone < 0 then 1000 + (1 + tone) * 7000
      else 8000 - tone * 4000
    let freqC := if freq < 200 then 200
      else if f.sr * 0.49 < freq then f.sr * 0.49 else freq
    let w := 2 * piLit * freqC / f.sr
    { f with tone := tone, isActive := true, lpCoeff := w / (1 + w) }

/-- `SaturationToneFilter::process`: one-pole lowpass update followed by the
dark crossfade (`tone < 0`) or the bright subtraction, returning output and
updated state. -/
noncomputable def SaturationToneFilter.process (f : SaturationToneFilter)
    (input : ℝ) : ℝ × SaturationToneFilter :=
  if !f.isActive then (input, f)
  else
    let lp := f.lpState + f.lpCoeff * (input - f.lpState)
    if f.tone < 0 then
      let blend := -f.tone
      ((1 - blend) * input + blend * lp, { f with lpState := lp })
    else
      (input - f.tone * lp, { f with lpState := lp })

/-- Complexification of the lowpass update line
`lpState += lpCoeff * (input - lpState)` of
`SaturationToneFilter::process`. -/
def toneLPStep (coeff : ℝ) (lp input : ℂ) : ℂ :=
  lp + (coeff : ℂ) * (input - lp)

/-- Complexification of the output branch of
`SaturationToneFilter::process` (the value returned for input `input` once
the lowpass state has been advanced to `lp`). -/
noncomputable def toneOut (tone : ℝ) (isActive : Bool) (input lp : ℂ) : ℂ :=
  if !isActive then input
  else if tone < 0 then
    ((1 - -tone : ℝ) : ℂ) * input + ((-tone : ℝ) : ℂ) * lp
  else input - (tone : ℂ) * lp

/-- Steady-state response `L(z) = c·z / (z − (1 − c))` of the one-pole
lowpass `lp += c·(x − lp)` to the exponential input `xₙ = zⁿ`. -/
noncomputable def toneLPResponse (coeff : ℝ) (z : ℂ) : ℂ :=
  (coeff : ℂ) * z / (z - (1 - (coeff : ℂ)))

/-- The transfer function of the configured tone filter at `z`: the output
branch applied to input `1` and the steady-state lowpass value `L(z)`. -/
noncomputable def toneTransfer (f : SaturationToneFilter) (z : ℂ) : ℂ :=
  toneOut f.tone f.isActive 1 (toneLPResponse f.lpCoeff z)

lemma toneLP_fixpoint (c : ℝ) (z : ℂ) (hz : z ≠ 0)
    (hb : z - (1 - (c : ℂ)) ≠ 0) :
    toneLPStep c (toneLPResponse c z / z) 1 = toneLPResponse c z := by
  unfold toneLPStep toneLPResponse
  field_simp
  ring

lemma tone_denom_ne (c θ : ℝ) (hc0 : 0 < c) (hc1 : c < 1) :
    Complex.exp (θ * Complex.I) - (1 - (c:ℂ)) ≠ 0 := by
  intro h
  have hz : Complex.exp (θ * Complex.I) = ((1 - c : ℝ) : ℂ) := by
    push_cast
    linear_combination h
  have habs := Complex.abs_exp_ofReal_mul_I θ
  rw [hz, Complex.abs_ofReal, abs_of_pos (by linarith : (0:ℝ) < 1 - c)]
    at habs
  linarith

lemma tone_dark_bound (a c θ : ℝ) (ha0 : 0 < a) (ha1 : a ≤ 1)
    (hc0 : 0 < c) (hc1 : c < 1) :
    Complex.abs (((1 - a : ℝ) : ℂ) * 1 + ((a : ℝ) : ℂ) *
      toneLPResponse c (Complex.exp (θ * Complex.I))) ≤ 1 := by
  set z := Complex.exp (θ * Complex.I) with hzdef
  have hden : z - (1 - (c:ℂ)) ≠ 0 := tone_denom_ne c θ hc0 hc1
  have hH : ((1 - a : ℝ) : ℂ) * 1 + ((a : ℝ) : ℂ) * toneLPResponse c z =
      (((1 - a : ℝ) : ℂ) * (z - (1 - (c:ℂ))) + ((a : ℝ) : ℂ) * ((c:ℂ) * z)) /
        (z - (1 - (c:ℂ))) := by
    unfold toneLPResponse
    field_simp
  rw [hH, map_div₀]
  apply div_le_one_of_le₀
  · rw [Complex.abs_apply, Complex.abs_apply]
    apply Real.sqrt_le_sqrt
    have hre : z.re = Real.cos θ := Complex.exp_ofReal_mul_I_re θ
    have him : z.im = Real.sin θ := Complex.exp_ofReal_mul_I_im θ
    simp only [Complex.normSq_apply, Complex.add_re, Complex.add_im,
      Complex.mul_re, Complex.mul_im, Complex.sub_re, Complex.sub_im,
      Complex.ofReal_re, Complex.ofReal_im, Complex.one_re, Complex.one_im,
      hre, him]
    have hsin : Real.sin θ ^ 2 = 1 - Real.cos θ ^ 2 := by
      have h := Real.sin_sq_add_cos_sq θ
      linarith
    have hfact : 0 ≤ 2*a*(1-c) * ((1 + (1-a)*(1-c)) * (1 - Real.cos θ)) := by
      apply mul_nonneg (by nlinarith)
      apply mul_nonneg (by nlinarith)
      linarith [Real.cos_le_one θ]
    ring_nf
    rw [hsin]
    nlinarith [hfact]
  · exact Complex.abs.nonneg _

lemma tone_bright_bound (t c θ : ℝ) (ht0 : 0 < t) (ht1 : t ≤ 1)
    (hc0 : 0 < c) (hc1 : c < 1) :
    Complex.abs (1 - ((t : ℝ) : ℂ) *
      toneLPResponse c (Complex.exp (θ * Complex.I))) ≤ 1 := by
  set z := Complex.exp (θ * Complex.I) with hzdef
  have hden : z - (1 - (c:ℂ)) ≠ 0 := tone_denom_ne c θ hc0 hc1
  have hH : 1 - ((t : ℝ) : ℂ) * toneLPResponse c z =
      ((z - (1 - (c:ℂ))) - ((t : ℝ) : ℂ) * ((c:ℂ) * z)) /
        (z - (1 - (c:ℂ))) := by
    unfold toneLPResponse
    field_simp
  rw [hH, map_div₀]
  apply div_le_one_of_le₀
  · rw [Complex.abs_apply, Complex.abs_apply]
    apply Real.sqrt_le_sqrt
    have hre : z.re = Real.cos θ := Complex.exp_ofReal_mul_I_re θ
    have him : z.im = Real.sin θ := Complex.exp_ofReal_mul_I_im θ
    simp only [Complex.normSq_apply, Complex.add_re, Complex.add_im,
      Complex.mul_re, Complex.mul_im, Complex.sub_re, Complex.sub_im,
      Complex.ofReal_re, Complex.ofReal_im, Complex.one_re, Complex.one_im,
      hre, him]
    have hsin : Real.sin θ ^ 2 = 1 - Real.cos θ ^ 2 := by
      have h := Real.sin_sq_add_cos_sq θ
      linarith
    have hcos : (1-c) * Real.cos θ ≤ 1 - c :=
      le_of_le_of_eq (mul_le_mul_of_nonneg_left (Real.cos_le_one θ)
        (by linarith : (0:ℝ) ≤ 1 - c)) (mul_one _)
    have htc : t * c ≤ c := by nlinarith
    have hfact : 0 ≤ (t*c) * ((2 - t*c) - 2*(1-c)*Real.cos θ) := by
      apply mul_nonneg (by nlinarith)
      nlinarith
    ring_nf
    rw [hsin]
    nlinarith [hfact]
  · exact Complex.abs.nonneg _

lemma clamp200_pos {sr fr : ℝ} (hsr : 0 < sr) :
    0 < if fr < 200 then (200:ℝ) else if sr * 0.49 < fr then sr * 0.49
      else fr := by
  split_ifs with h1 h2
  · norm_num
  · linarith
  · push_neg at h1
    linarith

lemma wOverOnePlusW_mem {w : ℝ} (hw : 0 < w) :
    0 < w / (1 + w) ∧ w / (1 + w) < 1 :=
  ⟨div_pos hw (by linarith), (div_lt_one (by linarith)).mpr (by linarith)⟩

/-- C6: for every tone setting in `[-100%, +100%]` and every sample rate
`SR > 0`, the filter realised by `SaturationToneFilter::process` has
magnitude at most 1 at every point `e^{iθ}` of the unit circle: the
steady-state lowpass value `L(z)` is a genuine fixed point of the code's
`lp += coeff·(input − lp)` recurrence under the exponential input, and the
transfer function (dark crossfade, bright subtraction, or unity when
inactive) satisfies `|H(z)| ≤ 1`. -/
theorem toneFilter_unit_circle_bound (f0 : SaturationToneFilter)
    (sr tonePercent θ : ℝ) (hsr : 0 < sr)
    (ht1 : -100 ≤ tonePercent) (ht2 : tonePercent ≤ 100) :
    (((f0.prepare sr).setTone tonePercent).isActive = true →
      toneLPStep ((f0.prepare sr).setTone tonePercent).lpCoeff
        (toneLPResponse ((f0.prepare sr).setTone tonePercent).lpCoeff
            (Complex.exp (θ * Complex.I)) /
          Complex.exp (θ * Complex.I)) 1 =
      toneLPResponse ((f0.prepare sr).setTone tonePercent).lpCoeff
        (Complex.exp (θ * Complex.I))) ∧
    Complex.abs (toneTransfer ((f0.prepare sr).setTone tonePercent)
      (Complex.exp (θ * Complex.I))) ≤ 1 := by
  set f := (f0.prepare sr).setTone tonePercent with hf
  by_cases hact : |tonePercent * 0.01| < 0.01
  · have hisA : f.isActive = false := by
      rw [hf]
      unfold SaturationToneFilter.setTone
      rw [if_pos hact]
    constructor
    · intro hcontra
      rw [hisA] at hcontra
      exact absurd hcontra (by simp)
    · rw [toneTransfer, hisA]
      unfold toneOut
      simp
  · have hisA : f.isActive = true := by
      rw [hf]
      unfold SaturationToneFilter.setTone
      rw [if_neg hact]
    have htone : f.tone = tonePercent * 0.01 := by
      rw [hf]
      unfold SaturationToneFilter.setTone
      rw [if_neg hact]
    have hlp : 0 < f.lpCoeff ∧ f.lpCoeff < 1 := by
      rw [hf]
      unfold SaturationToneFilter.setTone
      rw [if_neg hact]
      simp only [SaturationToneFilter.prepare]
      apply wOverOnePlusW_mem
      apply div_pos _ hsr
      apply mul_pos (by norm_num [piLit] : (0:ℝ) < 2 * piLit)
      exact clamp200_pos hsr
    refine ⟨fun _ => toneLP_fixpoint f.lpCoeff _ (Complex.exp_ne_zero _)
      (tone_denom_ne _ θ hlp.1 hlp.2), ?_⟩
    rw [toneTransfer, hisA, htone]
    unfold toneOut
    simp only [Bool.not_true, Bool.false_eq_true, if_false]
    by_cases hneg : tonePercent * 0.01 < 0
    · rw [if_pos hneg]
      have ha1 : -(tonePercent * 0.01) ≤ 1 := by linarith
      have ha0 : 0 < -(tonePercent * 0.01) := by linarith
      have hb := tone_dark_bound (-(tonePercent * 0.01)) f.lpCoeff θ ha0 ha1
        hlp.1 hlp.2
      convert hb using 3
    · rw [if_neg hneg]
      push_neg at hneg hact
      have ht0 : 0 < tonePercent * 0.01 := by
        rcases lt_or_eq_of_le hneg with h | h
        · exact h
        · exfalso
          rw [← h] at hact
          simp at hact
          linarith
      have hb := tone_bright_bound (tonePercent * 0.01) f.lpCoeff θ ht0
        (by linarith) hlp.1 hlp.2
      convert hb using 3

/-- Witness for `toneFilter_unit_circle_bound` at `SR = 44100`,
`tone = -50%`, `θ = 0`. -/
theorem toneFilter_unit_circle_bound_witness :
    ((0:ℝ) < 44100) ∧ (-100 ≤ (-50:ℝ)) ∧ ((-50:ℝ) ≤ 100) ∧
    ((((SaturationToneFilter.mk 44100 0 0.1 0 false).prepare 44100).setTone
          (-50)).isActive = true →
      toneLPStep (((SaturationToneFilter.mk 44100 0 0.1 0 false).prepare
          44100).setTone (-50)).lpCoeff
        (toneLPResponse (((SaturationToneFilter.mk 44100 0 0.1 0
              false).prepare 44100).setTone (-50)).lpCoeff
            (Complex.exp ((0:ℝ) * Complex.I)) /
          Complex.exp ((0:ℝ) * Complex.I)) 1 =
      toneLPResponse (((SaturationToneFilter.mk 44100 0 0.1 0 false).prepare
          44100).setTone (-50)).lpCoeff
        (Complex.exp ((0:ℝ) * Complex.I))) ∧
    Complex.abs (toneTransfer (((SaturationToneFilter.mk 44100 0 0.1 0
        false).prepare 44100).setTone (-50))
      (Complex.exp ((0:ℝ) * Complex.I))) ≤ 1 := by
  have h := toneFilter_unit_circle_bound
    (SaturationToneFilter.mk 44100 0 0.1 0 false) 44100 (-50) 0
    (by norm_num) (by norm_num) (by norm_num)
  exact ⟨by norm_num, by norm_num, by norm_num, h.1, h.2⟩

/-! ## DarkVelvetNoise (Source/DSP/DarkVelvetNoise.h)

Only the pulse-sequence state is embedded (`sr`, `decayShape`, `rt60`,
`dvnLength`, `normGain`, `dvnPulses`); the input ring buffer and write
position of `process` belong to the block convolver, which no claim about
the pulse sequence touches. -/

/-- `static_cast<int>` of a floating value: truncation toward zero. -/
noncomputable def cppTrunc (x : ℝ) : ℤ := if 0 ≤ x then ⌊x⌋ else ⌈x⌉

/-- A DVN pulse: position, ±1 sign, width in samples, envelope gain. -/
structure DVNPulse where
  position : ℤ
  sign : ℝ
  width : ℤ
  envelope : ℝ

/-- Sequence state of `DarkVelvetNoise`. -/
structure DarkVelvetNoise where
  sr : ℝ
  decayShape : ℝ
  rt60 : ℝ
  dvnLength : ℤ
  normGain : ℝ
  dvnPulses : List DVNPulse

/-- The pulse-generation loop of `DarkVelvetNoise::generateDVNSequence`:
`n` remaining iterations, current grid index `m`, current LCG state `rng`.
Each iteration advances the LCG three times (position jitter, sign, width)
and keeps the pulse only if its position lies inside `dvnLength`. -/
def genPulsesAux (gridSize dvnLength : ℤ) : ℕ → ℕ → ℕ → List DVNPulse
  | 0, _, _ => []
  | n + 1, m, rng =>
    let r1 := lcg rng
    let pos : ℤ := (m : ℤ) * gridSize + ((r1 % gridSize.toNat : ℕ) : ℤ)
    let r2 := lcg r1
    let sign : ℝ := if Nat.testBit r2 31 then -1 else 1
    let r3 := lcg r2
    let width : ℤ := 1 + ((r3 % 4 : ℕ) : ℤ)
    (if pos < dvnLength then [⟨pos, sign, width, 1⟩] else []) ++
      genPulsesAux gridSize dvnLength n (m + 1) r3

/-- `DarkVelvetNoise::updateEnvelopeCoefficients`: recompute the
double-exponential envelope of every in-range pulse, zero the envelope of
pulses past `dvnLength`, and refresh the RMS normalisation gain.  (In the
C++ the out-of-range pulses are skipped by `continue` before the energy
accumulation; since their envelope is zero their contribution to the energy
sum is zero either way.) -/
noncomputable def DarkVelvetNoise.updateEnvelopeCoefficients
    (s : DarkVelvetNoise) : DarkVelvetNoise :=
  if s.dvnPulses.isEmpty then s
  else
    let tau1 := s.rt60 / 6.9078
    let tau2 := s.rt60 * 1.5 / 6.9078
    let pulses := s.dvnPulses.map fun p =>
      if p.position ≥ s.dvnLength then { p with envelope := 0 }
      else
        let t : ℝ := (p.position : ℝ) / s.sr
        { p with envelope :=
            (1 - s.decayShape) * Real.exp (-t / (tau1 + 1e-6)) +
              s.decayShape * Real.exp (-t / (tau2 + 1e-6)) }
    let energySum := (pulses.map fun p => p.envelope * p.envelope).sum
    { s with
      dvnPulses := pulses
      normGain := if energySum > 1e-12 then 1 / Real.sqrt energySum else 1 }

/-- `DarkVelvetNoise::generateDVNSequence`: grid size
`max 1 (int (sr/1800))` (density 1800 pulses/s), sequence length
`int (sr·3)`, pulse count `min (dvnLength / gridSize) 500`. -/
noncomputable def DarkVelvetNoise.generateDVNSequence (s : DarkVelvetNoise)
    (seed : ℕ) : DarkVelvetNoise :=
  let gridSize : ℤ := max 1 (cppTrunc (s.sr / 1800))
  let dvnLength : ℤ := cppTrunc (s.sr * 3)
  let numPulses : ℤ := min (dvnLength / gridSize) 500
  DarkVelvetNoise.updateEnvelopeCoefficients
    { s with
      dvnLength := dvnLength
      dvnPulses := genPulsesAux gridSize dvnLength numPulses.toNat 0 seed }

/-- `DarkVelvetNoise::prepare` (sequence part): store the sample rate and
generate the pulse sequence from the seed. -/
noncomputable def DarkVelvetNoise.prepare (s : DarkVelvetNoise)
    (sampleRate : ℝ) (seed : ℕ) : DarkVelvetNoise :=
  DarkVelvetNoise.generateDVNSequence { s with sr := sampleRate } seed

/-- `DarkVelvetNoise::setParameters`: set the decay shape and RT60, set the
sequence length to `int (sr · min 3 (max 0.1 (2·rt60)))` and refresh the
envelopes. -/
noncomputable def DarkVelvetNoise.setParameters (s : DarkVelvetNoise)
    (decayShapePercent rt60Seconds : ℝ) : DarkVelvetNoise :=
  DarkVelvetNoise.updateEnvelopeCoefficients
    { s with
      decayShape := decayShapePercent * 0.01
      rt60 := rt60Seconds
      dvnLength := cppTrunc (s.sr * min 3 (max 0.1 (rt60Seconds * 2))) }

lemma genPulsesAux_length (g L : ℤ) :
    ∀ (n m rng : ℕ), (genPulsesAux g L n m rng).length ≤ n := by
  intro n
  induction n with
  | zero => intro m rng; simp [genPulsesAux]
  | succ k ih =>
    intro m rng
    rw [genPulsesAux, List.length_append]
    have hrec := ih (m + 1) (lcg (lcg (lcg rng)))
    by_cases h : ((m:ℤ) * g + ((lcg rng % g.toNat : ℕ) : ℤ)) < L
    · rw [if_pos h, List.length_singleton]
      omega
    · rw [if_neg h, List.length_nil]
      omega

lemma genPulsesAux_mem (g L : ℤ) (hg : 1 ≤ g) :
    ∀ (n m rng : ℕ) (p : DVNPulse), p ∈ genPulsesAux g L n m rng →
      1 ≤ p.width ∧ p.width ≤ 4 ∧ 0 ≤ p.position ∧ p.position < L := by
  intro n
  induction n with
  | zero => intro m rng p hp; simp [genPulsesAux] at hp
  | succ k ih =>
    intro m rng p hp
    rw [genPulsesAux, List.mem_append] at hp
    by_cases hpos : ((m:ℤ) * g + ((lcg rng % g.toNat : ℕ) : ℤ)) < L
    rotate_left
    · rw [if_neg hpos] at hp
      rcases hp with hp | hp
      · simp at hp
      · exact ih (m + 1) (lcg (lcg (lcg rng))) p hp
    rw [if_pos hpos] at hp
    rcases hp with hp | hp
    rotate_left
    · exact ih (m + 1) (lcg (lcg (lcg rng))) p hp
    · rw [List.mem_singleton] at hp
      subst hp
      dsimp only
      refine ⟨?_, ?_, ?_, hpos⟩
      · have h4 : (0:ℤ) ≤ ((lcg (lcg (lcg rng)) % 4 : ℕ) : ℤ) :=
          Int.natCast_nonneg _
        omega
      · have h4 : (lcg (lcg (lcg rng)) % 4 : ℕ) < 4 :=
          Nat.mod_lt _ (by norm_num)
        have h4' : ((lcg (lcg (lcg rng)) % 4 : ℕ) : ℤ) < 4 := by
          exact_mod_cast h4
        omega
      · have h1 : (0:ℤ) ≤ (m : ℤ) * g :=
          mul_nonneg (Int.natCast_nonneg m) (by omega)
        have h2 : (0:ℤ) ≤ ((lcg rng % g.toNat : ℕ) : ℤ) :=
          Int.natCast_nonneg _
        omega

lemma updateEnv_length (s : DarkVelvetNoise) :
    s.updateEnvelopeCoefficients.dvnPulses.length = s.dvnPulses.length := by
  unfold DarkVelvetNoise.updateEnvelopeCoefficients
  split_ifs
  · rfl
  · simp [List.length_map]

lemma updateEnv_dvnLength (s : DarkVelvetNoise) :
    s.updateEnvelopeCoefficients.dvnLength = s.dvnLength := by
  unfold DarkVelvetNoise.updateEnvelopeCoefficients
  split_ifs <;> rfl

lemma updateEnv_mem (s : DarkVelvetNoise) (p : DVNPulse)
    (hp : p ∈ s.updateEnvelopeCoefficients.dvnPulses) :
    ∃ q ∈ s.dvnPulses, p.position = q.position ∧ p.width = q.width := by
  unfold DarkVelvetNoise.updateEnvelopeCoefficients at hp
  split_ifs at hp
  · exact ⟨p, hp, rfl, rfl⟩
  · simp only [List.mem_map] at hp
    obtain ⟨q, hq, hfq⟩ := hp
    refine ⟨q, hq, ?_, ?_⟩ <;> rw [← hfq] <;> split_ifs <;> rfl

lemma updateEnv_get (s : DarkVelvetNoise) (k : ℕ)
    (hk : k < s.updateEnvelopeCoefficients.dvnPulses.length)
    (hk' : k < s.dvnPulses.length) :
    ((s.updateEnvelopeCoefficients.dvnPulses.get ⟨k, hk⟩).position =
      (s.dvnPulses.get ⟨k, hk'⟩).position) ∧
    ((s.updateEnvelopeCoefficients.dvnPulses.get ⟨k, hk⟩).width =
      (s.dvnPulses.get ⟨k, hk'⟩).width) ∧
    ((s.dvnPulses.get ⟨k, hk'⟩).position ≥ s.dvnLength →
      (s.updateEnvelopeCoefficients.dvnPulses.get ⟨k, hk⟩).envelope = 0) := by
  by_cases hempty : s.dvnPulses.isEmpty
  · exact absurd hk' (by simp [List.isEmpty_iff.mp hempty])
  · have hget : s.updateEnvelopeCoefficients.dvnPulses.get ⟨k, hk⟩ =
        (fun p =>
          if p.position ≥ s.dvnLength then { p with envelope := 0 }
          else
            { p with envelope :=
                (1 - s.decayShape) *
                    Real.exp (-((p.position : ℝ) / s.sr) /
                      (s.rt60 / 6.9078 + 1e-6)) +
                  s.decayShape *
                    Real.exp (-((p.position : ℝ) / s.sr) /
                      (s.rt60 * 1.5 / 6.9078 + 1e-6)) })
          (s.dvnPulses.get ⟨k, hk'⟩) := by
      have : s.updateEnvelopeCoefficients.dvnPulses =
          s.dvnPulses.map fun p =>
            if p.position ≥ s.dvnLength then { p with envelope := 0 }
            else
              { p with envelope :=
                  (1 - s.decayShape) *
                      Real.exp (-((p.position : ℝ) / s.sr) /
                        (s.rt60 / 6.9078 + 1e-6)) +
                    s.decayShape *
                      Real.exp (-((p.position : ℝ) / s.sr) /
                        (s.rt60 * 1.5 / 6.9078 + 1e-6)) } := by
        unfold DarkVelvetNoise.updateEnvelopeCoefficients
        rw [if_neg (by simpa using hempty)]
      rw [List.get_eq_getElem, List.get_eq_getElem]
      simp only [this, List.getElem_map]
    rw [hget]
    dsimp only
    refine ⟨?_, ?_, ?_⟩
    · split_ifs <;> rfl
    · split_ifs <;> rfl
    · intro hge
      rw [if_pos hge]

lemma generate_bounds (s : DarkVelvetNoise) (seed : ℕ) :
    (s.generateDVNSequence seed).dvnPulses.length ≤ 500 ∧
    ∀ p ∈ (s.generateDVNSequence seed).dvnPulses,
      1 ≤ p.width ∧ p.width ≤ 4 ∧ 0 ≤ p.position ∧
        p.position < (s.generateDVNSequence seed).dvnLength := by
  unfold DarkVelvetNoise.generateDVNSequence
  constructor
  · rw [updateEnv_length]
    dsimp only
    have h1 := genPulsesAux_length (max 1 (cppTrunc (s.sr / 1800)))
      (cppTrunc (s.sr * 3))
      (min (cppTrunc (s.sr * 3) / max 1 (cppTrunc (s.sr / 1800))) 500).toNat
      0 seed
    have h2 : (min (cppTrunc (s.sr * 3) / max 1 (cppTrunc (s.sr / 1800)))
        500 : ℤ) ≤ 500 := min_le_right _ _
    omega
  · intro p hp
    rw [updateEnv_dvnLength]
    dsimp only
    obtain ⟨q, hq, hpq, hwq⟩ := updateEnv_mem _ p hp
    have hb := genPulsesAux_mem (max 1 (cppTrunc (s.sr / 1800)))
      (cppTrunc (s.sr * 3)) (le_max_left _ _)
      (min (cppTrunc (s.sr * 3) / max 1 (cppTrunc (s.sr / 1800))) 500).toNat
      0 seed q hq
    rw [hpq, hwq]
    exact hb

/-- C9: the DVN pulse sequence generated by
`DarkVelvetNoise::generateDVNSequence` (as invoked from `prepare`) has at
most 500 pulses, every pulse width lies in `[1, 4]` and every pulse position
lies in `[0, dvnLength)`; and every subsequent `setParameters` call keeps
the pulse count, positions and widths unchanged, zeroing the envelope of
any pulse at or past the updated sequence length. -/
theorem dvn_pulse_bounds (s0 : DarkVelvetNoise) (sampleRate : ℝ) (seed : ℕ)
    (hsr : 0 < sampleRate) :
    ((s0.prepare sampleRate seed).dvnPulses.length ≤ 500 ∧
      ∀ p ∈ (s0.prepare sampleRate seed).dvnPulses,
        1 ≤ p.width ∧ p.width ≤ 4 ∧ 0 ≤ p.position ∧
          p.position < (s0.prepare sampleRate seed).dvnLength) ∧
    ∀ (s : DarkVelvetNoise) (decayShapePercent rt60Seconds : ℝ),
      (s.setParameters decayShapePercent rt60Seconds).dvnPulses.length =
        s.dvnPulses.length ∧
      ∀ (k : ℕ) (hk : k < (s.setParameters decayShapePercent
            rt60Seconds).dvnPulses.length) (hk' : k < s.dvnPulses.length),
        ((s.setParameters decayShapePercent rt60Seconds).dvnPulses.get
            ⟨k, hk⟩).position = (s.dvnPulses.get ⟨k, hk'⟩).position ∧
        ((s.setParameters decayShapePercent rt60Seconds).dvnPulses.get
            ⟨k, hk⟩).width = (s.dvnPulses.get ⟨k, hk'⟩).width ∧
        ((s.dvnPulses.get ⟨k, hk'⟩).position ≥
            (s.setParameters decayShapePercent rt60Seconds).dvnLength →
          ((s.setParameters decayShapePercent rt60Seconds).dvnPulses.get
            ⟨k, hk⟩).envelope = 0) := by
  constructor
  · exact generate_bounds { s0 with sr := sampleRate } seed
  · intro s decayShapePercent rt60Seconds
    constructor
    · exact updateEnv_length _
    · intro k hk hk'
      unfold DarkVelvetNoise.setParameters at hk ⊢
      rw [updateEnv_dvnLength]
      exact updateEnv_get _ k hk hk'

/-- Witness for `dvn_pulse_bounds` at `SR = 44100`, seed `0xABCD1234`. -/
theorem dvn_pulse_bounds_witness :
    ((0:ℝ) < 44100) ∧
    (((DarkVelvetNoise.mk 44100 0.4 1.8 0 1 []).prepare 44100
        0xABCD1234).dvnPulses.length ≤ 500 ∧
      ∀ p ∈ ((DarkVelvetNoise.mk 44100 0.4 1.8 0 1 []).prepare 44100
          0xABCD1234).dvnPulses,
        1 ≤ p.width ∧ p.width ≤ 4 ∧ 0 ≤ p.position ∧
          p.position < ((DarkVelvetNoise.mk 44100 0.4 1.8 0 1 []).prepare
            44100 0xABCD1234).dvnLength) ∧
    ∀ (s : DarkVelvetNoise) (decayShapePercent rt60Seconds : ℝ),
      (s.setParameters decayShapePercent rt60Seconds).dvnPulses.length =
        s.dvnPulses.length ∧
      ∀ (k : ℕ) (hk : k < (s.setParameters decayShapePercent
            rt60Seconds).dvnPulses.length) (hk' : k < s.dvnPulses.length),
        ((s.setParameters decayShapePercent rt60Seconds).dvnPulses.get
            ⟨k, hk⟩).position = (s.dvnPulses.get ⟨k, hk'⟩).position ∧
        ((s.setParameters decayShapePercent rt60Seconds).dvnPulses.get
            ⟨k, hk⟩).width = (s.dvnPulses.get ⟨k, hk'⟩).width ∧
        ((s.dvnPulses.get ⟨k, hk'⟩).position ≥
            (s.setParameters decayShapePercent rt60Seconds).dvnLength →
          ((s.setParameters decayShapePercent rt60Seconds).dvnPulses.get
            ⟨k, hk⟩).envelope = 0) := by
  have h := dvn_pulse_bounds (DarkVelvetNoise.mk 44100 0.4 1.8 0 1 [])
    44100 0xABCD1234 (by norm_num)
  exact ⟨by norm_num, h.1, h.2⟩
